import Mathlib

/-!
# Verification of the pdf_translator_server pipeline (src/app.py)

A shallow embedding of the single-module Flask service `src/app.py`:
the MyMemory translation client (`translate_text_mymemory`,
`translate_texts_batch`), the three-tier text-region extractor
(`extract_text_blocks`), the per-region mask-and-place reconstruction loop
inside `translate_pdf`, and the request handler's response logic.

Python strings are modelled as `List Char` (`Str`).  External effects are
modelled explicitly: the HTTP round trip of `requests.get` is an oracle
carried in a `NetState` together with a log of the requests issued, and the
PyMuPDF calls (`get_text`, `draw_rect`, `insert_textbox`, `show_pdf_page`,
`clean_contents`) are modelled as oracles / as an emitted operation trace.
`print` statements and `time.sleep` have no data effect and are omitted.
-/

/-- Python `str` modelled as a list of characters. -/
abbrev Str := List Char

/-- The whitespace characters recognised by Python's `str.strip()`
(ASCII subset; the Unicode whitespace characters behave identically
for every property proved here). -/
def pyIsSpace (c : Char) : Bool :=
  c = ' ' || c = '\t' || c = '\n' || c = '\r' || c = '\x0b' || c = '\x0c'

/-- Python `s.strip()`: remove leading and trailing whitespace. -/
def pyStrip (s : Str) : Str :=
  ((s.dropWhile pyIsSpace).reverse.dropWhile pyIsSpace).reverse

/-- Python `s.split(sep)` for a one-character separator: every occurrence of
the separator splits, empty segments are kept, and the result is never
empty. -/
def pySplit (sep : Char) : Str → List Str
  | [] => [[]]
  | c :: rest =>
    let r := pySplit sep rest
    if c = sep then [] :: r
    else (c :: r.headD []) :: r.tail

/-- Python `int()` applied to a numeric value: truncation toward zero. -/
def pyInt (q : ℚ) : ℤ :=
  if q < 0 then ⌈q⌉ else ⌊q⌋

/-! ## Translation client (src/app.py lines 24–79)

The JSON body the code reads from a MyMemory response: it looks up
`responseStatus` and `responseData.translatedText` with `dict.get`, so each
field is optional (`translatedText` is absent when either `responseData` or
`translatedText` is missing). -/

structure MMResponse where
  responseStatus : Option ℤ
  translatedText : Option Str
deriving DecidableEq, Repr

/-- Outcome of one `requests.get` call: either an exception was raised
(network error, timeout, or `response.json()` failing to parse), or a
response arrived with its `ok` flag and parsed JSON body. -/
inductive NetResult where
  | exn
  | resp (ok : Bool) (data : MMResponse)
deriving DecidableEq, Repr

/-- The network, as the code sees it: an oracle mapping the request
parameters (`q`, `langpair`) to an outcome, plus the log of requests
actually issued. -/
structure NetState where
  oracle : Str → Str → NetResult
  log : List (Str × Str)

/-- One `requests.get(MYMEMORY_URL, params={q, langpair}, timeout=10)` call:
the request is recorded in the log and the oracle decides the outcome. -/
def requests_get (st : NetState) (q lang_pair : Str) : NetResult × NetState :=
  (st.oracle q lang_pair, { st with log := st.log ++ [(q, lang_pair)] })

/-- `translate_text_mymemory(text, target_lang, source_lang)`
(src/app.py lines 24–45).  Sends `text[:500]` with langpair
`source|target`; on HTTP success with `responseStatus == 200` returns
`responseData.translatedText` (defaulting to `text` when absent); on a
non-ok response, wrong `responseStatus`, or an exception returns `text`. -/
def translate_text_mymemory (st : NetState) (text : Str)
    (target_lang source_lang : Str) : Str × NetState :=
  let lang_pair := source_lang ++ '|' :: target_lang
  let q := text.take 500
  let (response, st') := requests_get st q lang_pair
  match response with
  | .exn => (text, st')
  | .resp ok data =>
    if ok then
      if data.responseStatus = some 200 then
        (data.translatedText.getD text, st')
      else (text, st')
    else (text, st')

/-- `translate_texts_batch(texts, target_lang, source_lang)`
(src/app.py lines 48–79).  Whitespace-only texts are appended unchanged
without a network call; every other text goes through
`translate_text_mymemory`.  The `time.sleep(0.15)` rate-limit delay and the
progress prints have no data effect. -/
def translate_texts_batch (st : NetState) (texts : List Str)
    (target_lang source_lang : Str) : List Str × NetState :=
  match texts with
  | [] => ([], st)
  | text :: rest =>
    if (pyStrip text).isEmpty then
      let (others, st') := translate_texts_batch st rest target_lang source_lang
      (text :: others, st')
    else
      let (result, st') := translate_text_mymemory st text target_lang source_lang
      let (others, st'') := translate_texts_batch st' rest target_lang source_lang
      (result :: others, st'')

/-! ## Text region extractor (src/app.py lines 82–143)

The PyMuPDF data the three tiers consume.  Tier 1 reads
`page.get_text("dict")`: a dict of blocks, each with optional `type`,
`lines`, each line with a `bbox` and optional `spans`, each span with
optional `text` and `size` (every lookup in the code is a `dict.get` with a
default, modelled by `Option.getD`).  Tier 2 reads `page.get_text("blocks")`:
tuples `(x0, y0, x1, y1, text, ...)`; the code guards `len(block) >= 5`, so
the tuple length is part of the model.  Tier 3 reads `page.get_text("text")`:
one plain string.  Each `get_text` call may raise; the `try/except` around
each tier is modelled by giving each tier's library result as an
`Except Unit _` (over library-shaped data the loop bodies themselves are
total: the only unguarded index, `spans[0]`, is reachable only when the
concatenated span text is non-blank, which requires `spans` non-empty). -/

structure Rect where
  x0 : ℚ
  y0 : ℚ
  x1 : ℚ
  y1 : ℚ
deriving DecidableEq, Repr

/-- `fitz.Rect.height = y1 - y0`. -/
def Rect.height (r : Rect) : ℚ := r.y1 - r.y0

structure Span where
  text : Option Str
  size : Option ℚ

structure Line where
  bbox : Rect
  spans : Option (List Span)

structure Block where
  type : Option ℤ
  lines : Option (List Line)

structure PageDict where
  blocks : Option (List Block)

/-- A tier-2 block tuple `(x0, y0, x1, y1, text, block_no, block_type)`;
`tupleLen` is the tuple's length, checked by the code. -/
structure RawBlock where
  x0 : ℚ
  y0 : ℚ
  x1 : ℚ
  y1 : ℚ
  text : Str
  tupleLen : ℕ

/-- One entry of the `text_blocks` list built by `extract_text_blocks`. -/
structure Region where
  text : Str
  bbox : Rect
  size : ℚ
deriving DecidableEq, Repr

/-- Tier 1 (src/app.py lines 87–104): walk block → line → span, concatenate
span texts per line, keep lines whose stripped text is non-blank; the
region's size is the first span's `size` (default 12), its bbox the
line's. -/
def tier1 (d : PageDict) : List Region :=
  (d.blocks.getD []).flatMap (fun block =>
    if block.type = some 0 then
      (block.lines.getD []).filterMap (fun line =>
        let line_text := ((line.spans.getD []).map (fun s => s.text.getD [])).flatten
        if (pyStrip line_text).isEmpty then none
        else some { text := pyStrip line_text
                    bbox := line.bbox
                    size := ((line.spans.getD [⟨none, none⟩]).headD ⟨none, none⟩).size.getD 12 })
    else [])

/-- Tier 2 (src/app.py lines 107–121): one region per block tuple with at
least 5 fields and non-blank stripped text, size 12. -/
def tier2 (blocks : List RawBlock) : List Region :=
  blocks.filterMap (fun b =>
    if 5 ≤ b.tupleLen then
      let text := pyStrip b.text
      if text.isEmpty then none
      else some { text := text, bbox := ⟨b.x0, b.y0, b.x1, b.y1⟩, size := 12 }
    else none)

/-- The non-blank stripped lines of the page's plain text
(`[l.strip() for l in simple_text.split('\n') if l.strip()]`). -/
def tier3Lines (simple_text : Str) : List Str :=
  (pySplit '\n' simple_text).filterMap (fun l =>
    if (pyStrip l).isEmpty then none else some (pyStrip l))

/-- Tier 3 (src/app.py lines 124–141): if the page's plain text is
non-blank, split it into non-blank lines and synthesise one full-width
region per line, dividing the page height into equal bands, size 12. -/
def tier3 (simple_text : Str) (rect : Rect) : List Region :=
  if (pyStrip simple_text).isEmpty then []
  else
    let lines := tier3Lines simple_text
    let height_per_line := rect.height / (max lines.length 1 : ℕ)
    lines.enum.map (fun p =>
      let y0 := rect.y0 + p.1 * height_per_line
      let y1 := y0 + height_per_line
      { text := p.2, bbox := ⟨rect.x0, y0, rect.x1, y1⟩, size := 12 })

/-- `extract_text_blocks(page)` (src/app.py lines 82–143): tier 1, then
tier 2 if `text_blocks` is still empty, then tier 3 if still empty; a tier
whose library call raised contributes no regions. -/
def extract_text_blocks (dictResult : Except Unit PageDict)
    (blocksResult : Except Unit (List RawBlock))
    (textResult : Except Unit Str) (rect : Rect) : List Region :=
  let text_blocks :=
    match dictResult with
    | .ok d => tier1 d
    | .error _ => []
  let text_blocks :=
    if text_blocks.isEmpty then
      match blocksResult with
      | .ok bs => tier2 bs
      | .error _ => []
    else text_blocks
  if text_blocks.isEmpty then
    match textResult with
    | .ok t => tier3 t rect
    | .error _ => []
  else text_blocks

/-! ## Page reconstructor (src/app.py lines 193–255)

Per page, `translate_pdf` creates an output page of the source page's
dimensions, copies the source page into it (`show_pdf_page`), and — when
regions were extracted — masks and re-places each region, then compacts the
content stream (`clean_contents`).  The mutations of the output page are
modelled as an emitted trace of operations.  `insert_textbox` returns a
value whose truthiness drives the `while leftover` loop; that return value
is external to the code, so it is an oracle `leftover : ℕ → Bool` giving
the truthiness of the placement result at each font size (for the fixed
region being processed). -/

inductive Op where
  | copySrc
  | mask (r : Rect)
  | place (r : Rect) (text : Str) (fontsize : ℕ)
  | cleanContents
deriving DecidableEq, Repr

/-- `fontsize = max(8, min(int(size), 18))` (src/app.py line 230). -/
def clampFontsize (size : ℚ) : ℕ :=
  (max 8 (min (pyInt size) 18)).toNat

/-- The `while leftover and fontsize > 8:` loop (src/app.py lines 242–253):
as long as the last placement's result is truthy and the font size exceeds
8, decrement the size, repaint the mask, and place again.  Returns the
operations emitted by the loop and the final font size.  (The recursion is
written structurally on the font size; the separate `0` clause is forced,
since the guard `8 < 0` fails there.) -/
def shrinkLoop (leftover : ℕ → Bool) (rect_obj : Rect) (text : Str) :
    ℕ → List Op × ℕ
  | 0 => ([], 0)
  | fontsize + 1 =>
    if leftover (fontsize + 1) = true ∧ 8 < fontsize + 1 then
      let next := shrinkLoop leftover rect_obj text fontsize
      (Op.mask rect_obj :: Op.place rect_obj text fontsize :: next.1, next.2)
    else ([], fontsize + 1)

/-- One region's mask-and-place step (src/app.py lines 220–253): paint the
white rectangle over the region's bbox, insert the translated text at the
clamped font size, then run the shrink loop. -/
def processRegion (leftover : ℕ → Bool) (bbox : Rect) (translated : Str)
    (size : ℚ) : List Op × ℕ :=
  let rect_obj := bbox
  let fontsize := clampFontsize size
  let rest := shrinkLoop leftover rect_obj translated fontsize
  (Op.mask rect_obj :: Op.place rect_obj translated fontsize :: rest.1, rest.2)

/-- The operations `translate_pdf` performs on one output page
(src/app.py lines 197–255): copy the source page; if no regions were
extracted, `continue` (nothing further); otherwise mask-and-place every
region in order and finish with `clean_contents`.  `leftoverOf i` is the
placement oracle for region `i`. -/
def translatePage (leftoverOf : ℕ → ℕ → Bool) (text_blocks : List Region)
    (translated_texts : List Str) : List Op :=
  Op.copySrc ::
    (if text_blocks.isEmpty then []
     else
       (text_blocks.enum.flatMap (fun p =>
         (processRegion (leftoverOf p.1) p.2.bbox
           (translated_texts.getD p.1 []) p.2.size).1))
       ++ [Op.cleanContents])

/-! ## Request handler responses (src/app.py lines 161–286)

The handler's response logic: no `file` field → 400 with a fixed JSON error
body, before anything else runs; otherwise the whole pipeline (parse,
extract, translate, reconstruct, serialize) runs inside one `try`, and an
escaping exception yields a 500 JSON error built from the exception's type
name and message, never a PDF body.  The pipeline is abstracted as a
function from the uploaded file to `Except PyExc B`. -/

structure PyExc where
  name : String
  msg : String

/-- The responses `translate_pdf` can return. -/
inductive HandlerResponse (B : Type) where
  | jsonError (status : ℕ) (error : String)
  | pdfFile (bytes : B)
deriving DecidableEq

/-- `translate_pdf`'s response (src/app.py lines 170–286): the 400 guard,
then the `try/except` around the pipeline. -/
def translate_pdf_response {F B : Type} (file : Option F)
    (pipeline : F → Except PyExc B) : HandlerResponse B :=
  match file with
  | none => .jsonError 400 "No file uploaded"
  | some f =>
    match pipeline f with
    | .ok out_bytes => .pdfFile out_bytes
    | .error e => .jsonError 500 (e.name ++ ": " ++ e.msg)

/-! ## Derived definitions used by the statements -/

/-- A `requests.get` outcome the code treats as a failure: an exception, a
non-ok HTTP status, a `responseStatus` other than 200, or a missing
`translatedText` field. -/
def netFailure : NetResult → Bool
  | .exn => true
  | .resp ok data => !ok || !(data.responseStatus == some 200) || data.translatedText.isNone

/-- A network oracle whose every reply is a success carrying an empty
`translatedText`. -/
def emptySuccessNet : NetState :=
  { oracle := fun _ _ => .resp true ⟨some 200, some []⟩, log := [] }

/-- A network oracle whose every call raises. -/
def exnNet : NetState :=
  { oracle := fun _ _ => .exn, log := [] }

/-- The font sizes at which a text placement is attempted in an operation
trace. -/
def placedSizes (ops : List Op) : List ℕ :=
  ops.filterMap (fun op =>
    match op with
    | .place _ _ s => some s
    | _ => none)

/-- One mask-then-place pair per attempted font size, all over the same
rectangle with the same text. -/
def maskPlacePairs (r : Rect) (text : Str) (sizes : List ℕ) : List Op :=
  sizes.flatMap (fun s => [Op.mask r, Op.place r text s])

/-- The descending run `[a, a-1, ..., b]` (just `[a]` when `b = a`). -/
def descRun (a b : ℕ) : List ℕ :=
  (List.range (a + 1 - b)).map (fun i => a - i)

/-- What tier 1 contributes: its regions, or none when its library call
raised (the exception is caught and treated as zero regions). -/
def tier1Val (dictResult : Except Unit PageDict) : List Region :=
  match dictResult with
  | .ok d => tier1 d
  | .error _ => []

/-- What tier 2 contributes: its regions, or none when its library call
raised. -/
def tier2Val (blocksResult : Except Unit (List RawBlock)) : List Region :=
  match blocksResult with
  | .ok bs => tier2 bs
  | .error _ => []

/-- What tier 3 contributes: its regions, or none when its library call
raised. -/
def tier3Val (textResult : Except Unit Str) (rect : Rect) : List Region :=
  match textResult with
  | .ok t => tier3 t rect
  | .error _ => []

/-! ## Helper lemmas -/

lemma forall_mem_dropWhile_iff (p : Char → Bool) (l : Str) :
    (∀ x ∈ l.dropWhile p, p x = true) ↔ ∀ x ∈ l, p x = true := by
  constructor
  · intro h x hx
    rw [← List.takeWhile_append_dropWhile p l] at hx
    rcases List.mem_append.1 hx with h1 | h2
    · exact List.mem_takeWhile_imp h1
    · exact h x h2
  · intro h x hx
    refine h x ?_
    rw [← List.takeWhile_append_dropWhile p l]
    exact List.mem_append.2 (Or.inr hx)

lemma pyStrip_eq_nil_iff (s : Str) :
    pyStrip s = [] ↔ ∀ c ∈ s, pyIsSpace c = true := by
  unfold pyStrip
  rw [List.reverse_eq_nil_iff, List.dropWhile_eq_nil_iff]
  constructor
  · intro h
    rw [← forall_mem_dropWhile_iff pyIsSpace s]
    intro c hc
    exact h c (List.mem_reverse.2 hc)
  · intro h c hc
    exact (forall_mem_dropWhile_iff pyIsSpace s).2 h c (List.mem_reverse.1 hc)

/-- One evaluation lemma for the whole client call: the result by cases on
the oracle's reply, and the state with the issued request appended to the
log. -/
lemma translate_text_mymemory_eq (st : NetState) (text target_lang source_lang : Str) :
    translate_text_mymemory st text target_lang source_lang =
      ((match st.oracle (text.take 500) (source_lang ++ '|' :: target_lang) with
        | .exn => text
        | .resp ok data =>
          if ok = true then
            if data.responseStatus = some 200 then data.translatedText.getD text
            else text
          else text),
       { st with log := st.log ++ [(text.take 500, source_lang ++ '|' :: target_lang)] }) := by
  rcases hr : st.oracle (text.take 500) (source_lang ++ '|' :: target_lang) with _ | ⟨ok, data⟩
  · simp only [translate_text_mymemory, requests_get, hr]
  · simp only [translate_text_mymemory, requests_get, hr]
    rcases ok with _ | _
    · simp
    · simp only [if_true]
      split <;> rfl

/-! ## C9: request handler response policy -/

/-- C9: a request whose form data has no `file` field is answered with
HTTP 400 and JSON error body `"No file uploaded"`, whatever the pipeline
would do (so before any PDF parsing is attempted); and when the pipeline
raises, the response is HTTP 500 with error `"<ExceptionTypeName>: <message>"`
and is not a PDF body. -/
theorem C9_response_policy :
    (∀ (F B : Type) (pipeline : F → Except PyExc B),
        translate_pdf_response none pipeline =
          HandlerResponse.jsonError 400 "No file uploaded") ∧
    (∀ (F B : Type) (f : F) (pipeline : F → Except PyExc B) (e : PyExc),
        pipeline f = Except.error e →
          translate_pdf_response (some f) pipeline =
            HandlerResponse.jsonError 500 (e.name ++ ": " ++ e.msg) ∧
          ∀ b : B, translate_pdf_response (some f) pipeline ≠ HandlerResponse.pdfFile b) := by
  constructor
  · intro F B pipeline
    rfl
  · intro F B f pipeline e h
    constructor
    · simp [translate_pdf_response, h]
    · intro b
      simp [translate_pdf_response, h]

/-! ## C4: all translation failures are absorbed -/

/-- C4: on every failure outcome of the network call — a raised exception,
a non-success HTTP status, a `responseStatus` other than 200, or a missing
`translatedText` field — the client returns the original string unchanged.
(That it never propagates an error and always returns some string is the
totality of `translate_text_mymemory` at type `Str × NetState`.) -/
theorem C4_failure_returns_original (st : NetState) (text target_lang source_lang : Str)
    (h : netFailure (st.oracle (text.take 500) (source_lang ++ '|' :: target_lang)) = true) :
    (translate_text_mymemory st text target_lang source_lang).1 = text := by
  have heq := translate_text_mymemory_eq st text target_lang source_lang
  rcases hr : st.oracle (text.take 500) (source_lang ++ '|' :: target_lang) with _ | ⟨ok, data⟩
  · rw [heq, hr]
  · rw [hr] at h heq
    rw [heq]
    rcases ok with _ | _
    · rfl
    · rcases data with ⟨status, tt⟩
      simp only [netFailure, Bool.not_true, Bool.false_or, Bool.or_eq_true,
        Bool.not_eq_true', beq_eq_false_iff_ne, ne_eq,
        Option.isNone_iff_eq_none] at h
      rcases h with h | h
      · simp [h]
      · simp [h]

theorem C4_failure_returns_original_witness :
    (translate_text_mymemory exnNet ['h', 'i'] [] []).1 = ['h', 'i'] :=
  C4_failure_returns_original exnNet ['h', 'i'] [] [] (by decide)

/-! ## C10: 500-character truncation of the query -/

/-- C10: the query sent to the remote endpoint is exactly `text[:500]`
(for inputs of at most 500 characters, the whole string); on a successful
response the value returned is the `translatedText` the remote attached to
that truncated query; on any failure the full original string is
returned. -/
theorem C10_sends_500_char_prefix (st : NetState) (text target_lang source_lang : Str) :
    (translate_text_mymemory st text target_lang source_lang).2.log =
        st.log ++ [(text.take 500, source_lang ++ '|' :: target_lang)] ∧
    (text.length ≤ 500 → text.take 500 = text) ∧
    (∀ t : Str,
        st.oracle (text.take 500) (source_lang ++ '|' :: target_lang) =
          NetResult.resp true ⟨some 200, some t⟩ →
        (translate_text_mymemory st text target_lang source_lang).1 = t) ∧
    (netFailure (st.oracle (text.take 500) (source_lang ++ '|' :: target_lang)) = true →
        (translate_text_mymemory st text target_lang source_lang).1 = text) := by
  have heq := translate_text_mymemory_eq st text target_lang source_lang
  refine ⟨by rw [heq], fun hlen => List.take_of_length_le hlen, ?_, ?_⟩
  · intro t hsucc
    rw [heq, hsucc]
    simp
  · intro hfail
    rcases hr : st.oracle (text.take 500) (source_lang ++ '|' :: target_lang) with _ | ⟨ok, data⟩
    · rw [heq, hr]
    · rw [hr] at hfail heq
      rw [heq]
      rcases ok with _ | _
      · rfl
      · rcases data with ⟨status, tt⟩
        simp only [netFailure, Bool.not_true, Bool.false_or, Bool.or_eq_true,
          Bool.not_eq_true', beq_eq_false_iff_ne, ne_eq,
          Option.isNone_iff_eq_none] at hfail
        rcases hfail with h | h
        · simp [h]
        · simp [h]

/-! ## C5: non-empty results — corrected -/

/-- C5 as stated is false: on the non-empty input "hi", a network reply
that is an HTTP success with `responseStatus = 200` and an *empty*
`translatedText` makes the client return the empty string. -/
theorem C5_counterexample :
    (['h', 'i'] : Str) ≠ [] ∧
    (translate_text_mymemory emptySuccessNet ['h', 'i'] [] []).1 = [] := by
  constructor
  · decide
  · rfl

/-- C5 amended: for every non-empty input, the client's result is non-empty
unless the network reply was a success whose `translatedText` field is the
empty string (in every other case the result is the translation or the
non-empty original). -/
theorem C5_amended_nonempty (st : NetState) (text target_lang source_lang : Str)
    (h : text ≠ []) :
    (translate_text_mymemory st text target_lang source_lang).1 ≠ [] ∨
      st.oracle (text.take 500) (source_lang ++ '|' :: target_lang) =
        NetResult.resp true ⟨some 200, some []⟩ := by
  have heq := translate_text_mymemory_eq st text target_lang source_lang
  rcases hr : st.oracle (text.take 500) (source_lang ++ '|' :: target_lang) with _ | ⟨ok, data⟩
  · left
    rw [heq, hr]
    exact h
  · rw [hr] at heq
    rcases ok with _ | _
    · left
      rw [heq]
      exact h
    · rcases data with ⟨status, tt⟩
      by_cases hs : status = some 200
      · rcases tt with _ | ⟨t⟩
        · left
          rw [heq]
          simpa [hs] using h
        · rcases ht : t with _ | _
          · right
            rw [hs]
          · left
            rw [heq]
            simp [hs, ht]
      · left
        rw [heq]
        simpa [hs] using h

theorem C5_amended_nonempty_witness :
    (translate_text_mymemory exnNet ['h'] [] []).1 ≠ [] ∨
      exnNet.oracle (['h'].take 500) ([] ++ '|' :: []) =
        NetResult.resp true ⟨some 200, some []⟩ :=
  C5_amended_nonempty exnNet ['h'] [] [] (by decide)

/-! ## C6: whitespace-only inputs are passed through without a network call -/

/-- Batch invariant: lengths agree, the oracle is unchanged, the log grows
by exactly one entry — the 500-character prefix — per non-whitespace text,
and whitespace-only texts come back unchanged at their position. -/
lemma translate_texts_batch_spec (target_lang source_lang : Str) (texts : List Str) :
    ∀ st : NetState,
      (translate_texts_batch st texts target_lang source_lang).1.length = texts.length ∧
      (translate_texts_batch st texts target_lang source_lang).2.oracle = st.oracle ∧
      (translate_texts_batch st texts target_lang source_lang).2.log =
        st.log ++ (texts.filter (fun t => !(pyStrip t).isEmpty)).map
          (fun t => (t.take 500, source_lang ++ '|' :: target_lang)) ∧
      (∀ i : ℕ, ∀ h : i < texts.length, (pyStrip texts[i]).isEmpty = true →
        (translate_texts_batch st texts target_lang source_lang).1[i]? = some texts[i]) := by
  induction texts with
  | nil =>
    intro st
    refine ⟨rfl, rfl, by simp [translate_texts_batch], ?_⟩
    intro i h
    simp at h
  | cons text rest ih =>
    intro st
    by_cases hws : (pyStrip text).isEmpty = true
    · have hstep : translate_texts_batch st (text :: rest) target_lang source_lang =
          (text :: (translate_texts_batch st rest target_lang source_lang).1,
           (translate_texts_batch st rest target_lang source_lang).2) := by
        simp only [translate_texts_batch]
        rw [if_pos hws]
      rcases ih st with ⟨ihlen, ihor, ihlog, ihidx⟩
      rw [hstep]
      refine ⟨by simpa using ihlen, ihor, ?_, ?_⟩
      · rw [ihlog, List.filter_cons]
        simp [hws]
      · intro i h hi
        rcases i with _ | i
        · simp
        · simpa using ihidx i (by simpa using h) (by simpa using hi)
    · have hmm := translate_text_mymemory_eq st text target_lang source_lang
      set st' := (translate_text_mymemory st text target_lang source_lang).2 with hst'
      have hstep : translate_texts_batch st (text :: rest) target_lang source_lang =
          ((translate_text_mymemory st text target_lang source_lang).1 ::
             (translate_texts_batch st' rest target_lang source_lang).1,
           (translate_texts_batch st' rest target_lang source_lang).2) := by
        simp only [translate_texts_batch]
        rw [if_neg hws]
      rcases ih st' with ⟨ihlen, ihor, ihlog, ihidx⟩
      have hor' : st'.oracle = st.oracle := by rw [hst', hmm]
      have hlog' : st'.log = st.log ++ [(text.take 500, source_lang ++ '|' :: target_lang)] := by
        rw [hst', hmm]
      rw [hstep]
      refine ⟨by simpa using ihlen, by rw [ihor, hor'], ?_, ?_⟩
      · rw [ihlog, hlog', List.filter_cons]
        simp [hws]
      · intro i h hi
        rcases i with _ | i
        · simp at hi
          simp [hi] at hws
        · simpa using ihidx i (by simpa using h) (by simpa using hi)

/-- An all-whitespace batch is the identity: every text comes back
verbatim and the network state (oracle and log) is untouched. -/
lemma translate_texts_batch_all_ws (target_lang source_lang : Str) (texts : List Str) :
    ∀ st : NetState, (∀ t ∈ texts, (pyStrip t).isEmpty = true) →
      translate_texts_batch st texts target_lang source_lang = (texts, st) := by
  induction texts with
  | nil => intro st _; rfl
  | cons text rest ih =>
    intro st hall
    have hws : (pyStrip text).isEmpty = true := hall text (by simp)
    simp only [translate_texts_batch, hws, if_true]
    rw [ih st (fun t ht => hall t (by simp [ht]))]

/-- C6: whitespace-only texts are returned verbatim at their position in
the batch, the request log grows only with the non-whitespace texts (so a
whitespace-only text never causes a network call), and a batch of only
whitespace-only texts leaves the network state untouched entirely. -/
theorem C6_whitespace_passthrough (st : NetState) (texts : List Str)
    (target_lang source_lang : Str) :
    (translate_texts_batch st texts target_lang source_lang).1.length = texts.length ∧
    (∀ i : ℕ, ∀ h : i < texts.length, (∀ c ∈ texts[i], pyIsSpace c = true) →
      (translate_texts_batch st texts target_lang source_lang).1[i]? = some texts[i]) ∧
    ((translate_texts_batch st texts target_lang source_lang).2.log =
      st.log ++ (texts.filter (fun t => !(pyStrip t).isEmpty)).map
        (fun t => (t.take 500, source_lang ++ '|' :: target_lang))) ∧
    ((∀ t ∈ texts, ∀ c ∈ t, pyIsSpace c = true) →
      translate_texts_batch st texts target_lang source_lang = (texts, st)) := by
  rcases translate_texts_batch_spec target_lang source_lang texts st with ⟨hlen, _, hlog, hidx⟩
  refine ⟨hlen, ?_, hlog, ?_⟩
  · intro i h hws
    exact hidx i h (by rw [List.isEmpty_iff, pyStrip_eq_nil_iff]; exact hws)
  · intro hall
    exact translate_texts_batch_all_ws target_lang source_lang texts st
      (fun t ht => by rw [List.isEmpty_iff, pyStrip_eq_nil_iff]; exact hall t ht)

/-! ## Reconstructor lemmas: the shrink loop -/

lemma clampFontsize_mem (size : ℚ) :
    8 ≤ clampFontsize size ∧ clampFontsize size ≤ 18 := by
  unfold clampFontsize
  omega

lemma placedSizes_maskplace (r : Rect) (t : Str) (s : ℕ) (l : List Op) :
    placedSizes (Op.mask r :: Op.place r t s :: l) = s :: placedSizes l := by
  simp [placedSizes]

lemma maskPlacePairs_cons (r : Rect) (t : Str) (s : ℕ) (ps : List ℕ) :
    maskPlacePairs r t (s :: ps) =
      Op.mask r :: Op.place r t s :: maskPlacePairs r t ps := by
  simp [maskPlacePairs]

lemma descRun_self (a : ℕ) : descRun a a = [a] := by
  unfold descRun
  have h : a + 1 - a = 1 := by omega
  rw [h]
  rfl

lemma descRun_succ (a b : ℕ) (h : b ≤ a) :
    descRun (a + 1) b = (a + 1) :: descRun a b := by
  unfold descRun
  have h2 : a + 1 + 1 - b = (a + 1 - b) + 1 := by omega
  rw [h2, List.range_succ_eq_map, List.map_cons, List.map_map]
  congr 1
  simp [Function.comp, Nat.succ_sub_succ]

lemma mem_descRun (a b s : ℕ) (hs : s ∈ descRun a b) : b ≤ s ∨ s ≤ a := by
  unfold descRun at hs
  rcases List.mem_map.1 hs with ⟨i, hi, rfl⟩
  rw [List.mem_range] at hi
  omega

lemma mem_descRun_of_le (a b s : ℕ) (hba : b ≤ a) (hs : s ∈ descRun a b) :
    b ≤ s ∧ s ≤ a := by
  unfold descRun at hs
  rcases List.mem_map.1 hs with ⟨i, hi, rfl⟩
  rw [List.mem_range] at hi
  omega

/-- Everything the `while` loop guarantees at once: the final font size
stays in `[8, fs]`, the attempted sizes (the entry size `fs` followed by
the loop's) form the descending run from `fs` to the final size, the loop
condition fails at the final size, and every size above the final one was
attempted with a truthy leftover. -/
lemma shrinkLoop_spec (leftover : ℕ → Bool) (r : Rect) (t : Str) :
    ∀ fs : ℕ, 8 ≤ fs →
      8 ≤ (shrinkLoop leftover r t fs).2 ∧
      (shrinkLoop leftover r t fs).2 ≤ fs ∧
      fs :: placedSizes (shrinkLoop leftover r t fs).1 =
        descRun fs (shrinkLoop leftover r t fs).2 ∧
      ¬(leftover (shrinkLoop leftover r t fs).2 = true ∧
        8 < (shrinkLoop leftover r t fs).2) ∧
      (∀ s : ℕ, (shrinkLoop leftover r t fs).2 < s → s ≤ fs → leftover s = true) := by
  intro fs
  induction fs with
  | zero =>
    intro h
    exact absurd h (by omega)
  | succ n ihn =>
    intro h8
    by_cases hc : leftover (n + 1) = true ∧ 8 < n + 1
    · have h8n : 8 ≤ n := by omega
      have hstep : shrinkLoop leftover r t (n + 1) =
          (Op.mask r :: Op.place r t n :: (shrinkLoop leftover r t n).1,
           (shrinkLoop leftover r t n).2) := by
        simp only [shrinkLoop]
        rw [if_pos hc]
      rcases ihn h8n with ⟨ih1, ih2, ih3, ih4, ih5⟩
      rw [hstep]
      refine ⟨ih1, by omega, ?_, ih4, ?_⟩
      · rw [placedSizes_maskplace, descRun_succ n (shrinkLoop leftover r t n).2 ih2]
        rw [← ih3]
      · intro s hs1 hs2
        rcases Nat.lt_or_ge s (n + 1) with hlt | hge
        · exact ih5 s hs1 (by omega)
        · have : s = n + 1 := by omega
          rw [this]
          exact hc.1
    · have hstep : shrinkLoop leftover r t (n + 1) = ([], n + 1) := by
        simp only [shrinkLoop]
        rw [if_neg hc]
      rw [hstep]
      refine ⟨h8, le_refl _, ?_, hc, ?_⟩
      · simp [placedSizes, descRun_self]
      · intro s h1 h2
        omega

lemma shrinkLoop_pairs (leftover : ℕ → Bool) (r : Rect) (t : Str) :
    ∀ fs : ℕ, (shrinkLoop leftover r t fs).1 =
      maskPlacePairs r t (placedSizes (shrinkLoop leftover r t fs).1) := by
  intro fs
  induction fs with
  | zero => rfl
  | succ n ihn =>
    by_cases hc : leftover (n + 1) = true ∧ 8 < n + 1
    · have hstep : shrinkLoop leftover r t (n + 1) =
          (Op.mask r :: Op.place r t n :: (shrinkLoop leftover r t n).1,
           (shrinkLoop leftover r t n).2) := by
        simp only [shrinkLoop]
        rw [if_pos hc]
      rw [hstep]
      rw [placedSizes_maskplace, maskPlacePairs_cons]
      exact congrArg _ (congrArg _ ihn)
    · have hstep : shrinkLoop leftover r t (n + 1) = ([], n + 1) := by
        simp only [shrinkLoop]
        rw [if_neg hc]
      rw [hstep]
      rfl

lemma processRegion_trace (leftover : ℕ → Bool) (bbox : Rect) (translated : Str)
    (size : ℚ) :
    (processRegion leftover bbox translated size).1 =
      Op.mask bbox :: Op.place bbox translated (clampFontsize size) ::
        (shrinkLoop leftover bbox translated (clampFontsize size)).1 ∧
    (processRegion leftover bbox translated size).2 =
      (shrinkLoop leftover bbox translated (clampFontsize size)).2 := by
  constructor <;> rfl

/-! ## C1: same box for mask and placement, re-masked before every attempt -/

/-- C1: the operation trace of one region is exactly a sequence of
`mask`/`place` pairs: every text placement, at the initial clamped size and
at every shrink iteration, uses the region's one bounding box and is
immediately preceded by an opaque mask painted over that same box. -/
theorem C1_mask_and_place_same_box (leftover : ℕ → Bool) (bbox : Rect)
    (translated : Str) (size : ℚ) :
    (processRegion leftover bbox translated size).1 =
      maskPlacePairs bbox translated
        (placedSizes (processRegion leftover bbox translated size).1) := by
  rcases processRegion_trace leftover bbox translated size with ⟨h1, _⟩
  rw [h1, placedSizes_maskplace, maskPlacePairs_cons]
  exact congrArg _ (congrArg _ (shrinkLoop_pairs leftover bbox translated (clampFontsize size)))

/-! ## C2: every attempted font size lies in [8, 18] -/

/-- C2: every font size at which a placement is attempted — the initial
clamped size and every size the shrink loop reaches — lies in the closed
range `[8, 18]`, whatever the extracted source font size was. -/
theorem C2_fontsize_in_range (leftover : ℕ → Bool) (bbox : Rect) (translated : Str)
    (size : ℚ) :
    ∀ s ∈ placedSizes (processRegion leftover bbox translated size).1,
      8 ≤ s ∧ s ≤ 18 := by
  intro s hs
  rcases processRegion_trace leftover bbox translated size with ⟨h1, _⟩
  rcases clampFontsize_mem size with ⟨hc8, hc18⟩
  rcases shrinkLoop_spec leftover bbox translated (clampFontsize size) hc8 with
    ⟨hf8, hffs, hdesc, _, _⟩
  rw [h1, placedSizes_maskplace] at hs
  rw [hdesc] at hs
  have := mem_descRun_of_le (clampFontsize size)
    (shrinkLoop leftover bbox translated (clampFontsize size)).2 s (by omega) hs
  omega

theorem C2_fontsize_in_range_witness : 8 ≤ 12 ∧ 12 ≤ 18 :=
  C2_fontsize_in_range (fun _ => false) ⟨0, 0, 1, 1⟩ [] 12 12 (by decide)

/-! ## C3: the shrink loop terminates, one unit per step, floor 8 -/

/-- C3: the shrink-and-retry loop is characterised completely: the final
font size lies in `[8, clamped]`, the number of shrink iterations is
`clamped - final ≤ 10`, the attempted sizes are the descending unit-step
run from the clamped size to the final size, the loop stops exactly when
the placement reports no leftover or the floor 8 is reached, and every
size above the final one was attempted with a truthy leftover (the loop
stops as soon as either condition holds; at the floor the remaining
overflow is accepted, the function simply returns).  Termination itself is
the totality of `shrinkLoop`. -/
theorem C3_shrink_loop_behaviour (leftover : ℕ → Bool) (bbox : Rect)
    (translated : Str) (size : ℚ) :
    8 ≤ (processRegion leftover bbox translated size).2 ∧
    (processRegion leftover bbox translated size).2 ≤ clampFontsize size ∧
    clampFontsize size - (processRegion leftover bbox translated size).2 ≤ 10 ∧
    placedSizes (processRegion leftover bbox translated size).1 =
      descRun (clampFontsize size) (processRegion leftover bbox translated size).2 ∧
    (leftover (processRegion leftover bbox translated size).2 = false ∨
      (processRegion leftover bbox translated size).2 = 8) ∧
    (∀ s : ℕ, (processRegion leftover bbox translated size).2 < s →
      s ≤ clampFontsize size → leftover s = true) := by
  rcases processRegion_trace leftover bbox translated size with ⟨h1, h2⟩
  rcases clampFontsize_mem size with ⟨hc8, hc18⟩
  rcases shrinkLoop_spec leftover bbox translated (clampFontsize size) hc8 with
    ⟨hf8, hffs, hdesc, hstop, habove⟩
  rw [h1, h2, placedSizes_maskplace]
  refine ⟨hf8, hffs, by omega, hdesc, ?_, habove⟩
  rcases hb : leftover (shrinkLoop leftover bbox translated (clampFontsize size)).2 with _ | _
  · exact Or.inl rfl
  · right
    have : ¬ 8 < (shrinkLoop leftover bbox translated (clampFontsize size)).2 := by
      intro hgt
      exact hstop ⟨hb, hgt⟩
    omega

/-! ## C7: the three-tier fallback chain -/

/-- `extract_text_blocks` written with the per-tier contributions made
explicit (definitional). -/
lemma extract_text_blocks_eq (dictResult : Except Unit PageDict)
    (blocksResult : Except Unit (List RawBlock)) (textResult : Except Unit Str)
    (rect : Rect) :
    extract_text_blocks dictResult blocksResult textResult rect =
      if (if (tier1Val dictResult).isEmpty then tier2Val blocksResult
          else tier1Val dictResult).isEmpty
      then tier3Val textResult rect
      else if (tier1Val dictResult).isEmpty then tier2Val blocksResult
           else tier1Val dictResult := rfl

/-- C7: the coarse block tier is consulted only when the structured tier
contributed zero regions, and the plain-text tier only when both earlier
tiers contributed zero regions — where a tier whose library call raised
contributes zero regions (`tier1Val`/`tier2Val`/`tier3Val` map a raised
call to `[]`); the extractor's result does not depend on the data of tiers
that are not reached; and when all three tiers contribute zero regions the
page's operation trace is just the full copy of the source page: no mask,
no text insertion, no content cleaning. -/
theorem C7_extraction_fallback (dictResult : Except Unit PageDict)
    (blocksResult : Except Unit (List RawBlock)) (textResult : Except Unit Str)
    (rect : Rect) (leftoverOf : ℕ → ℕ → Bool) (translated_texts : List Str) :
    (tier1Val dictResult ≠ [] →
      ∀ (b : Except Unit (List RawBlock)) (t : Except Unit Str),
        extract_text_blocks dictResult b t rect = tier1Val dictResult) ∧
    (tier1Val dictResult = [] → tier2Val blocksResult ≠ [] →
      ∀ t : Except Unit Str,
        extract_text_blocks dictResult blocksResult t rect = tier2Val blocksResult) ∧
    (tier1Val dictResult = [] → tier2Val blocksResult = [] →
      extract_text_blocks dictResult blocksResult textResult rect =
        tier3Val textResult rect) ∧
    (extract_text_blocks dictResult blocksResult textResult rect = [] →
      translatePage leftoverOf
        (extract_text_blocks dictResult blocksResult textResult rect)
        translated_texts = [Op.copySrc]) := by
  refine ⟨?_, ?_, ?_, ?_⟩
  · intro h1 b t
    have e1 : (tier1Val dictResult).isEmpty = false := List.isEmpty_eq_false.2 h1
    rw [extract_text_blocks_eq]
    simp [e1]
  · intro h1 h2 t
    have e1 : (tier1Val dictResult).isEmpty = true := List.isEmpty_iff.2 h1
    have e2 : (tier2Val blocksResult).isEmpty = false := List.isEmpty_eq_false.2 h2
    rw [extract_text_blocks_eq]
    simp [e1, e2]
  · intro h1 h2
    have e1 : (tier1Val dictResult).isEmpty = true := List.isEmpty_iff.2 h1
    have e2 : (tier2Val blocksResult).isEmpty = true := List.isEmpty_iff.2 h2
    rw [extract_text_blocks_eq]
    simp [e1, e2]
  · intro hz
    rw [hz]
    rfl

/-! ## C8: the plain-text tier's synthesized bands -/

lemma pySplit_ne_nil (sep : Char) (s : Str) : pySplit sep s ≠ [] := by
  cases s with
  | nil => simp [pySplit]
  | cons c rest =>
    simp only [pySplit]
    split <;> simp

/-- Every character of every segment of `pySplit` is a character of the
split string. -/
lemma mem_pySplit (sep : Char) :
    ∀ s seg : Str, seg ∈ pySplit sep s → ∀ c ∈ seg, c ∈ s := by
  intro s
  induction s with
  | nil =>
    intro seg hseg c hc
    simp [pySplit] at hseg
    subst hseg
    simp at hc
  | cons a rest ih =>
    intro seg hseg c hc
    by_cases ha : a = sep
    · rw [pySplit, if_pos ha] at hseg
      rcases List.mem_cons.1 hseg with h | h
      · subst h
        simp at hc
      · exact List.mem_cons_of_mem a (ih seg h c hc)
    · rw [pySplit, if_neg ha] at hseg
      rcases List.mem_cons.1 hseg with h | h
      · subst h
        rcases List.mem_cons.1 hc with h1 | h1
        · subst h1
          exact List.mem_cons_self c rest
        · have hne := pySplit_ne_nil sep rest
          rcases hr : pySplit sep rest with _ | ⟨h0, t0⟩
          · exact absurd hr hne
          · rw [hr] at h1
            simp only [List.headD_cons] at h1
            have hh0 : h0 ∈ pySplit sep rest := by
              rw [hr]
              exact List.mem_cons_self h0 t0
            exact List.mem_cons_of_mem a (ih h0 hh0 c h1)
      · have hmem : seg ∈ pySplit sep rest := List.mem_of_mem_tail h
        exact List.mem_cons_of_mem a (ih seg hmem c hc)

/-- When the plain text has at least one non-blank line, the guard
`if simple_text.strip():` passes. -/
lemma tier3Lines_strip (simple_text : Str) (h : tier3Lines simple_text ≠ []) :
    (pyStrip simple_text).isEmpty = false := by
  rcases List.exists_mem_of_ne_nil _ h with ⟨x, hx⟩
  unfold tier3Lines at hx
  rcases List.mem_filterMap.1 hx with ⟨l, hl, hfl⟩
  by_cases he : (pyStrip l).isEmpty = true
  · rw [if_pos he] at hfl
    exact absurd hfl (by simp)
  · have hlne : pyStrip l ≠ [] := fun hnil => he (by rw [hnil]; rfl)
    rw [List.isEmpty_eq_false]
    intro hnil
    have hall := (pyStrip_eq_nil_iff simple_text).1 hnil
    have hnot : ¬ ∀ c ∈ l, pyIsSpace c = true :=
      fun hallc => hlne ((pyStrip_eq_nil_iff l).2 hallc)
    push_neg at hnot
    rcases hnot with ⟨c, hcl, hcs⟩
    exact hcs (hall c (mem_pySplit '\n' simple_text l hl c hcl))

/-- C8: with `N ≥ 1` non-blank trimmed lines in the page's plain text, the
plain-text tier produces exactly `N` regions, in line order, the `i`-th
spanning the full page width with vertical band
`[y0 + i·H/N, y0 + (i+1)·H/N]` and font size 12. -/
theorem C8_plaintext_tier_bands (simple_text : Str) (rect : Rect) (N : ℕ)
    (hN : 1 ≤ N) (hlen : (tier3Lines simple_text).length = N) :
    (tier3 simple_text rect).length = N ∧
    (∀ i : ℕ, i < N →
      (tier3 simple_text rect)[i]? =
        some { text := (tier3Lines simple_text).getD i []
               bbox := ⟨rect.x0, rect.y0 + (i : ℚ) * (rect.height / (N : ℚ)),
                        rect.x1, rect.y0 + ((i : ℚ) + 1) * (rect.height / (N : ℚ))⟩
               size := 12 }) := by
  have hne : tier3Lines simple_text ≠ [] := by
    intro hnil
    rw [hnil] at hlen
    simp at hlen
    omega
  have hguard := tier3Lines_strip simple_text hne
  have htier : tier3 simple_text rect =
      (tier3Lines simple_text).enum.map (fun p =>
        { text := p.2
          bbox := ⟨rect.x0,
                   rect.y0 + (p.1 : ℚ) *
                     (rect.height / (max (tier3Lines simple_text).length 1 : ℕ)),
                   rect.x1,
                   (rect.y0 + (p.1 : ℚ) *
                     (rect.height / (max (tier3Lines simple_text).length 1 : ℕ))) +
                     rect.height / (max (tier3Lines simple_text).length 1 : ℕ)⟩
          size := 12 }) := by
    unfold tier3
    rw [if_neg (by simp [hguard])]
  constructor
  · rw [htier]
    simp [List.enum_length, hlen]
  · intro i hi
    have hi' : i < (tier3Lines simple_text).length := by omega
    have hmax : max (tier3Lines simple_text).length 1 = N := by omega
    have hgetD : (tier3Lines simple_text).getD i [] = (tier3Lines simple_text)[i] := by
      rw [List.getD_eq_getElem?_getD, List.getElem?_eq_getElem hi']
      rfl
    rw [htier, List.getElem?_map, List.getElem?_enum,
        List.getElem?_eq_getElem hi']
    rw [hmax]
    simp only [Option.map_some']
    rw [hgetD]
    simp only [Option.some.injEq, Region.mk.injEq, Rect.mk.injEq, true_and, and_true]
    ring

theorem C8_plaintext_tier_bands_witness :
    (tier3 ['a', '\n', 'b'] ⟨0, 0, 10, 4⟩).length = 2 ∧
    (∀ i : ℕ, i < 2 →
      (tier3 ['a', '\n', 'b'] ⟨0, 0, 10, 4⟩)[i]? =
        some { text := (tier3Lines ['a', '\n', 'b']).getD i []
               bbox := ⟨(⟨0, 0, 10, 4⟩ : Rect).x0,
                        (⟨0, 0, 10, 4⟩ : Rect).y0 +
                          (i : ℚ) * ((⟨0, 0, 10, 4⟩ : Rect).height / ((2 : ℕ) : ℚ)),
                        (⟨0, 0, 10, 4⟩ : Rect).x1,
                        (⟨0, 0, 10, 4⟩ : Rect).y0 +
                          ((i : ℚ) + 1) * ((⟨0, 0, 10, 4⟩ : Rect).height / ((2 : ℕ) : ℚ))⟩
               size := 12 }) :=
  C8_plaintext_tier_bands ['a', '\n', 'b'] ⟨0, 0, 10, 4⟩ 2 (by norm_num) (by rfl)
